import Mathlib

/-!
Verification of the RoyalCrash backend (`royalcrash_backend/main.py`).

The development shallowly embeds the game logic in Lean:

* Python floats are modelled by exact rationals `ℚ`; Python's `round(x, n)`
  (round-half-even on the decimal expansion) is modelled by `roundTo`, and
  Python's raising float division by `pydiv` (returning `none` on a zero
  divisor, i.e. `ZeroDivisionError`).
* `generate_crash_point` is embedded as a function of the 32-bit value
  `val = int(hexdigest[:8], 16)` derived from the HMAC-SHA256 of the seed;
  the HMAC itself is a pure function of the seed, so every property proved
  for all `val < 2^32` holds for all seed strings.
* The mutable singleton `GameState` becomes a structure, the Python dict
  `bets` an association list (insertion order preserved, keys unique), and
  each state-mutating fragment of the game loop and of the websocket
  handler a pure transition `GameState → GameState × List Event`.
  Wall-clock driven quantities (fresh crash points, tick multipliers,
  timestamps) enter as parameters of the corresponding operation.
  Connections and transport are outside the model; `Event.error` values
  are those sent privately to the requesting connection only, the other
  events are broadcast, and `Event.exn` marks an escaped exception (the
  handler drops the connection, state untouched).
-/

/-- Round-half-even of `x` to an integer: Python's `round` tie-breaking
(banker's rounding). -/
def rhe {α : Type} [LinearOrderedField α] [FloorRing α] (x : α) : ℤ :=
  if x - (Int.floor x : α) < 1/2 then Int.floor x
  else if 1/2 < x - (Int.floor x : α) then Int.floor x + 1
  else if Even (Int.floor x) then Int.floor x else Int.floor x + 1

/-- Python's `round(x, n)`: round-half-even to `n` decimal places. -/
def roundTo {α : Type} [LinearOrderedField α] [FloorRing α] (n : ℕ) (x : α) : α :=
  ((rhe (x * 10 ^ n) : ℤ) : α) / 10 ^ n

/-- Python's `/` on numbers: raises `ZeroDivisionError` on a zero divisor. -/
def pydiv (a b : ℚ) : Option ℚ :=
  if b = 0 then none else some (a / b)

/-- `generate_crash_point` (main.py lines 48-56), as a function of the value
`val = int(hmac_sha256_hexdigest[:8], 16) < 2^32` derived from the seed:

    if val % 33 == 0: return 1.0
    result = (100 / (1 - (val / 0xFFFFFFFF))) / 100
    return round(min(result, 10000.0), 2)

`none` models the interpreter raising (`ZeroDivisionError`). -/
def generate_crash_point (val : ℕ) : Option ℚ :=
  if val % 33 = 0 then some 1
  else
    (pydiv (val : ℚ) 0xFFFFFFFF).bind fun x =>
    (pydiv 100 (1 - x)).bind fun y =>
    (pydiv y 100).map fun result =>
    roundTo 2 (min result 10000)

-- ── GAME STATE (main.py 33-44) ─────────────────────────────────────────────

/-- The four phases of a round (main.py line 35). -/
inductive Phase
  | waiting
  | betting
  | running
  | crashed
  deriving DecidableEq

/-- One entry of `game.bets` (main.py lines 40, 207-213). -/
structure Bet where
  amount : ℚ
  auto_cashout : Option ℚ
  cashed_out : Bool
  cashout_at : Option ℚ
  username : String
  deriving DecidableEq

/-- One entry of `game.history` (main.py lines 148-152). -/
structure HistoryEntry where
  round_id : ℕ
  crash_point : ℚ
  timestamp : ℕ
  deriving DecidableEq

/-- The process-wide game state (class `GameState`, main.py 33-42).
`start_time` and the connection set are not modelled: the first only feeds
the wall-clock elapsed time, which enters the tick operation as a parameter,
and the second is transport state. -/
structure GameState where
  phase : Phase
  multiplier : ℚ
  crash_point : ℚ
  round_id : ℕ
  bets : List (ℕ × Bet)
  history : List HistoryEntry
  deriving DecidableEq

/-- The state built by `GameState.__init__` (main.py 34-42). -/
def initialState : GameState :=
  { phase := .waiting, multiplier := 1, crash_point := 1, round_id := 0,
    bets := [], history := [] }

-- ── INBOUND MESSAGE FIELDS ─────────────────────────────────────────────────

/-- A JSON value of an inbound message field, restricted to the shapes the
handler manipulates: numbers, strings, and `None` (also for an absent key). -/
inductive JVal
  | jnum (q : ℚ)
  | jstr (s : String)
  | jnull
  deriving DecidableEq

/-- Python truthiness of a field value: `0`, `0.0`, `""` and `None` are
falsy, everything else is truthy. -/
def jtruthy : JVal → Bool
  | .jnum q => q != 0
  | .jstr s => s != ""
  | .jnull => false

/-- Value of a decimal digit character. -/
def digitVal? (c : Char) : Option ℕ :=
  if c.isDigit then some (c.toNat - 48) else none

/-- Value of a nonempty run of decimal digit characters. -/
def digitsVal? (cs : List Char) : Option ℕ :=
  if cs.isEmpty then none
  else cs.foldl (fun acc c => acc.bind fun n => (digitVal? c).map fun d => 10 * n + d)
    (some 0)

/-- Helper of `strToRat?`: parse `digits`, `digits.`, `.digits` or
`digits.digits`. -/
def strToRatCore (cs : List Char) : Option ℚ :=
  let ip := cs.takeWhile fun c => c ≠ '.'
  let rest := cs.dropWhile fun c => c ≠ '.'
  match rest with
  | [] => (digitsVal? ip).map fun n => (n : ℚ)
  | _ :: fp =>
    if fp.any (fun c => c = '.') then none
    else if ip.isEmpty then (digitsVal? fp).map fun f => (f : ℚ) / 10 ^ fp.length
    else if fp.isEmpty then (digitsVal? ip).map fun n => (n : ℚ)
    else (digitsVal? ip).bind fun n => (digitsVal? fp).map fun f =>
      (n : ℚ) + (f : ℚ) / 10 ^ fp.length

/-- Python's `float(s)` on a plain decimal string literal with an optional
sign; strings outside this shape are treated as a conversion failure
(`ValueError`). -/
def strToRat? (s : String) : Option ℚ :=
  match s.toList with
  | '-' :: cs => (strToRatCore cs).map fun q => -q
  | '+' :: cs => strToRatCore cs
  | cs => strToRatCore cs

/-- Python's `float(x)` on a message field: numbers pass through, strings are
parsed as decimal literals, `None` raises `TypeError`.  `none` models the
conversion raising. -/
def jfloat : JVal → Option ℚ
  | .jnum q => some q
  | .jstr s => strToRat? s
  | .jnull => none

-- ── EMITTED EVENTS ─────────────────────────────────────────────────────────

/-- An entry of a `tick` broadcast's `cashouts` list (main.py line 123). -/
structure CashoutNote where
  user_id : ℕ
  multiplier : ℚ
  username : String
  deriving DecidableEq

/-- An entry of a `crashed` broadcast's `results` list (main.py 136-145). -/
structure ResultNote where
  user_id : ℕ
  username : String
  amount : ℚ
  cashed_out : Bool
  cashout_at : Option ℚ
  deriving DecidableEq

/-- Messages the server emits.  `error` replies go only to the requesting
connection (`websocket.send_text`), the rest are broadcast to every live
connection; `exn` marks an exception escaping the handler loop, which drops
the connection (main.py 239-242). -/
inductive Event
  | error (message : String)
  | exn
  | betting_start (round_id : ℕ) (duration : ℕ)
  | round_start (round_id : ℕ) (bets : List (ℕ × ℚ × String))
  | tick (multiplier : ℚ) (cashouts : List CashoutNote)
  | crashed (multiplier : ℚ) (round_id : ℕ) (results : List ResultNote)
      (history : List HistoryEntry)
  | bet_placed (user_id : ℕ) (username : String) (amount : ℚ)
  | cashout (user_id : ℕ) (username : String) (multiplier : ℚ) (winnings : ℚ)
  deriving DecidableEq

-- ── OPERATIONS (main.py 75-163, 182-237) ───────────────────────────────────

/-- `d[k] = v` on a Python dict viewed as an association list: replace the
value in place when the key is present, append otherwise. -/
def dictInsert (k : ℕ) (v : Bet) : List (ℕ × Bet) → List (ℕ × Bet)
  | [] => [(k, v)]
  | (k', v') :: rest => if k' = k then (k, v) :: rest else (k', v') :: dictInsert k v rest

/-- The keys of the bets dict are pairwise distinct (always true of a Python
dict). -/
def keysNodup (l : List (ℕ × Bet)) : Prop :=
  (l.map Prod.fst).Nodup

/-- The `place_bet` branch of the websocket handler (main.py 187-220):
convert `amount` with `float` (189), reject outside the Betting phase
(193-198), reject a non-positive amount (200-205), otherwise insert/replace
the participant's bet (207-213) and broadcast `bet_placed` (215-220). -/
def place_bet (g : GameState) (user_id : ℕ) (amountJ autoJ : JVal)
    (username : String) : GameState × List Event :=
  match jfloat amountJ with
  | none => (g, [.exn])
  | some amount =>
    if g.phase ≠ Phase.betting then
      (g, [.error "Ставки принимаются только до начала раунда"])
    else if amount ≤ 0 then
      (g, [.error "Некорректная сумма ставки"])
    else
      match (if jtruthy autoJ then (jfloat autoJ).map Option.some else some none) with
      | none => (g, [.exn])
      | some auto_cashout =>
        let b : Bet :=
          { amount := amount, auto_cashout := auto_cashout, cashed_out := false,
            cashout_at := none, username := username }
        ({ g with bets := dictInsert user_id b g.bets },
         [.bet_placed user_id username amount])

/-- The `cashout` branch of the websocket handler (main.py 222-237): only
when the phase is Running and the participant has a bet that is not yet
cashed out, mark the bet cashed out at the current multiplier and broadcast
`cashout` with `winnings = round(amount * multiplier, 4)`; in every other
case nothing happens and nothing is sent. -/
def request_cashout (g : GameState) (user_id : ℕ) : GameState × List Event :=
  if g.phase = Phase.running then
    match g.bets.lookup user_id with
    | some bet =>
      if bet.cashed_out then (g, [])
      else
        let b : Bet := { bet with cashed_out := true, cashout_at := some g.multiplier }
        ({ g with bets := dictInsert user_id b g.bets },
         [.cashout user_id bet.username g.multiplier
            (roundTo 4 (bet.amount * g.multiplier))])
    | none => (g, [])
  else (g, [])

/-- The auto-cashout trigger of a Running tick at multiplier `m` (main.py
line 120): `not bet["cashed_out"] and bet["auto_cashout"] and
game.multiplier >= bet["auto_cashout"]` (a stored `0.0` threshold is falsy). -/
def autoHit (m : ℚ) (b : Bet) : Bool :=
  !b.cashed_out &&
    (match b.auto_cashout with
     | none => false
     | some a => a != 0 && decide (a ≤ m))

/-- Effect of the auto-cashout evaluation on one bet (main.py 120-122). -/
def auto_pass_bet (m : ℚ) (b : Bet) : Bet :=
  if autoHit m b then { b with cashed_out := true, cashout_at := some m } else b

/-- The `cashouts` list accumulated by the auto-cashout loop (main.py
118-123). -/
def tick_cashouts (m : ℚ) (l : List (ℕ × Bet)) : List CashoutNote :=
  l.filterMap fun p =>
    if autoHit m p.2 then some ⟨p.1, m, p.2.username⟩ else none

/-- One history update at Crashed-phase entry (main.py 148-153): prepend the
new entry, truncate to the 20 most recent. -/
def push_history (h : List HistoryEntry) (e : HistoryEntry) : List HistoryEntry :=
  (e :: h).take 20

/-- The `results` list of the `crashed` broadcast (main.py 136-145). -/
def round_results (l : List (ℕ × Bet)) : List ResultNote :=
  l.map fun p => ⟨p.1, p.2.username, p.2.amount, p.2.cashed_out, p.2.cashout_at⟩

/-- The atomic state transitions of the system: the phase entries and the
tick of the game loop (wall-clock derived data as parameters) and the two
inbound websocket commands. -/
inductive Op
  | betting_start (cp : ℚ)
  | running_start
  | tick (m : ℚ)
  | crash (ts : ℕ)
  | place_bet_msg (user_id : ℕ) (amountJ autoJ : JVal) (username : String)
  | cashout_msg (user_id : ℕ)
  deriving DecidableEq

/-- One step of the system.  `betting_start cp` is Betting-phase entry
(main.py 79-90), `cp` being `generate_crash_point` of the fresh random seed;
`running_start` is Running-phase entry (93-104); `tick m` is one iteration
of the multiplier loop (108-129), `m = round(1.0024 ** (elapsed * 10), 2)`
at the current wall-clock elapsed time — when `m` reaches the crash point
the iteration breaks before the auto-cashout pass and broadcast; `crash ts`
is Crashed-phase entry (131-161) at timestamp `ts`; the message operations
are the websocket handler branches. -/
def applyOp (g : GameState) : Op → GameState × List Event
  | .betting_start cp =>
    ({ g with
        phase := .betting, round_id := g.round_id + 1, bets := [],
        crash_point := cp },
     [.betting_start (g.round_id + 1) 7000])
  | .running_start =>
    ({ g with phase := .running, multiplier := 1 },
     [.round_start g.round_id (g.bets.map fun p => (p.1, p.2.amount, p.2.username))])
  | .tick m =>
    if g.crash_point ≤ m then
      ({ g with multiplier := m }, [])
    else
      ({ g with
          multiplier := m,
          bets := g.bets.map fun p => (p.1, auto_pass_bet m p.2) },
       [.tick m (tick_cashouts m g.bets)])
  | .crash ts =>
    ({ g with
        phase := .crashed, multiplier := g.crash_point,
        history := push_history g.history ⟨g.round_id, g.crash_point, ts⟩ },
     [.crashed g.crash_point g.round_id (round_results g.bets)
        ((push_history g.history ⟨g.round_id, g.crash_point, ts⟩).take 7)])
  | .place_bet_msg uid amountJ autoJ un => place_bet g uid amountJ autoJ un
  | .cashout_msg uid => request_cashout g uid

/-- Whether an emitted event reports a cashout resolution (auto-cashout note
inside a tick, or an explicit cashout broadcast) of the given participant. -/
def resolvesUid (uid : ℕ) : Event → Bool
  | .cashout u _ _ _ => u == uid
  | .tick _ cs => cs.any fun c => c.user_id == uid
  | _ => false

/-- The multiplier recomputed from elapsed seconds during the Running phase
(main.py line 112): `round(pow(1.0024, elapsed * 10), 2)`, over the reals. -/
noncomputable def multiplier_at (elapsed : ℝ) : ℝ :=
  roundTo 2 ((1.0024 : ℝ) ^ (elapsed * 10))


/-- Whether an event is a (private) `error` reply. -/
def isError : Event → Bool
  | .error _ => true
  | _ => false

/-- A sample bet, used to instantiate theorems at concrete inputs. -/
def sampleBet : Bet :=
  { amount := 5, auto_cashout := none, cashed_out := false, cashout_at := none,
    username := "p" }

/-- A sample already-cashed-out bet. -/
def sampleCashedBet : Bet :=
  { amount := 5, auto_cashout := some 2, cashed_out := true, cashout_at := some 2,
    username := "p" }

/-- A Running-phase state holding one live bet for participant 1. -/
def runningState : GameState :=
  { phase := .running, multiplier := 2, crash_point := 3, round_id := 1,
    bets := [(1, sampleBet)], history := [] }

/-- A Running-phase state holding one already-cashed-out bet for participant 1. -/
def runningCashedState : GameState :=
  { phase := .running, multiplier := 2, crash_point := 3, round_id := 1,
    bets := [(1, sampleCashedBet)], history := [] }

/-- A Running-phase state with an empty bet ledger. -/
def idleRunningState : GameState :=
  { phase := .running, multiplier := 1, crash_point := 2, round_id := 1,
    bets := [], history := [] }

/-- A Betting-phase state with an empty bet ledger. -/
def bettingState : GameState :=
  { phase := .betting, multiplier := 1, crash_point := 2, round_id := 1,
    bets := [], history := [] }

/-- Lift the spec-level optional numeric `auto_cashout` parameter onto the
wire: a present value is a JSON number, an absent one is `None`. -/
def jOfOpt : Option ℚ → JVal
  | some a => .jnum a
  | none => .jnull

/-- The stored `auto_cashout` threshold produced by
`float(auto_cashout) if auto_cashout else None` on an optional numeric
field: a falsy value (absent, or the number 0) stores `None`. -/
def autoStore : Option ℚ → Option ℚ
  | none => none
  | some a => if a = 0 then none else some a

/-- The bet record stored by an accepted `place_bet` (main.py 207-213). -/
def storedBet (amt : ℚ) (auto : Option ℚ) (un : String) : Bet :=
  { amount := amt, auto_cashout := autoStore auto, cashed_out := false,
    cashout_at := none, username := un }

-- ── THEOREMS ──────────────────────────────────────────────────────────────

theorem floor_le_rhe {α : Type} [LinearOrderedField α] [FloorRing α] (x : α) :
    Int.floor x ≤ rhe x := by
  rw [rhe]; split_ifs <;> omega

theorem rhe_le_floor_add_one {α : Type} [LinearOrderedField α] [FloorRing α] (x : α) :
    rhe x ≤ Int.floor x + 1 := by
  rw [rhe]; split_ifs <;> omega

theorem intCast_le_rhe {α : Type} [LinearOrderedField α] [FloorRing α] {x : α} {n : ℤ}
    (h : (n : α) ≤ x) : n ≤ rhe x :=
  le_trans (Int.le_floor.mpr h) (floor_le_rhe x)

theorem rhe_le_intCast {α : Type} [LinearOrderedField α] [FloorRing α] {x : α} {n : ℤ}
    (h : x ≤ (n : α)) : rhe x ≤ n := by
  have hf : Int.floor x ≤ n := by
    simpa using Int.floor_le_floor (α := α) h
  rcases lt_or_eq_of_le hf with hlt | heq
  · exact le_trans (rhe_le_floor_add_one x) (by omega)
  · have hx : x = (n : α) := le_antisymm h (by rw [← heq]; exact Int.floor_le x)
    rw [rhe, hx]
    norm_num

theorem rhe_mono {α : Type} [LinearOrderedField α] [FloorRing α] {x y : α}
    (hxy : x ≤ y) : rhe x ≤ rhe y := by
  rcases lt_or_ge (Int.floor x) (Int.floor y) with hf | hf
  · exact le_trans (rhe_le_floor_add_one x) (le_trans (by omega) (floor_le_rhe y))
  · have hf' : Int.floor x = Int.floor y :=
      le_antisymm (Int.floor_le_floor hxy) hf
    rw [rhe, rhe, ← hf']
    split_ifs with h1 h2 h3 h4 h5 h6 h7 h8 h9 <;> first | omega | linarith

theorem rhe_intCast {α : Type} [LinearOrderedField α] [FloorRing α] (n : ℤ) :
    rhe ((n : ℤ) : α) = n := by
  rw [rhe]
  norm_num

example : generate_crash_point 0 = some 1 := by norm_num [generate_crash_point]
example : generate_crash_point 33 = some 1 := by norm_num [generate_crash_point]
example : generate_crash_point 1 = some 1 := by
  norm_num [generate_crash_point, pydiv, roundTo, rhe]
  unfold Int.fract
  norm_num
example : generate_crash_point 4294967294 = some 10000 := by
  norm_num [generate_crash_point, pydiv, roundTo, rhe]
example : generate_crash_point 4294967295 = none := by
  norm_num [generate_crash_point, pydiv]
example : generate_crash_point 2147483648 = some 2 := by
  norm_num [generate_crash_point, pydiv, roundTo, rhe]
  unfold Int.fract
  norm_num

theorem intCast_le_roundTo {α : Type} [LinearOrderedField α] [FloorRing α]
    {x : α} {m : ℤ} (n : ℕ) (h : (m : α) ≤ x) : (m : α) ≤ roundTo n x := by
  have h1 : ((m * 10 ^ n : ℤ) : α) ≤ x * 10 ^ n := by
    push_cast
    exact mul_le_mul_of_nonneg_right h (by positivity)
  have h2 : (m * 10 ^ n : ℤ) ≤ rhe (x * 10 ^ n) := intCast_le_rhe h1
  rw [roundTo, le_div_iff₀ (by positivity)]
  calc (m : α) * 10 ^ n = ((m * 10 ^ n : ℤ) : α) := by push_cast; ring
    _ ≤ ((rhe (x * 10 ^ n) : ℤ) : α) := by exact_mod_cast h2

theorem roundTo_le_intCast {α : Type} [LinearOrderedField α] [FloorRing α]
    {x : α} {m : ℤ} (n : ℕ) (h : x ≤ (m : α)) : roundTo n x ≤ (m : α) := by
  have h1 : x * 10 ^ n ≤ ((m * 10 ^ n : ℤ) : α) := by
    push_cast
    exact mul_le_mul_of_nonneg_right h (by positivity)
  have h2 : rhe (x * 10 ^ n) ≤ (m * 10 ^ n : ℤ) := rhe_le_intCast h1
  rw [roundTo, div_le_iff₀ (by positivity)]
  calc ((rhe (x * 10 ^ n) : ℤ) : α) ≤ ((m * 10 ^ n : ℤ) : α) := by exact_mod_cast h2
    _ = (m : α) * 10 ^ n := by push_cast; ring

theorem roundTo_mono {α : Type} [LinearOrderedField α] [FloorRing α]
    (n : ℕ) {x y : α} (h : x ≤ y) : roundTo n x ≤ roundTo n y := by
  rw [roundTo, roundTo]
  rw [div_le_div_iff_of_pos_right (by positivity)]
  exact_mod_cast rhe_mono (mul_le_mul_of_nonneg_right h (by positivity))

/-- C1, amended: for every derived 32-bit value `val` other than `0xFFFFFFFF`,
`generate_crash_point` returns a value, and that value lies in
`[1.00, 10000.00]`.  (Equal seeds trivially give equal outputs: the embedding
is a pure function of the seed's derived value.  At `val = 0xFFFFFFFF` the
code raises `ZeroDivisionError`, see `generate_crash_point_raises_at_max`.) -/
theorem generate_crash_point_total_bounds (val : ℕ) (_hlt : val < 2 ^ 32)
    (hne : val ≠ 4294967295) :
    ∃ q : ℚ, generate_crash_point val = some q ∧ 1 ≤ q ∧ q ≤ 10000 := by
  by_cases h33 : val % 33 = 0
  · exact ⟨1, by simp [generate_crash_point, h33], by norm_num, by norm_num⟩
  · have hM : (4294967295 : ℚ) ≠ 0 := by norm_num
    have hvM : (val : ℚ) < 4294967295 := by
      have h : val < 4294967295 := by omega
      exact_mod_cast h
    have ht0 : (0 : ℚ) ≤ (val : ℚ) / 4294967295 := by positivity
    have ht1 : (val : ℚ) / 4294967295 < 1 := by
      rw [div_lt_one (by norm_num)]
      exact hvM
    have hsub : (0 : ℚ) < 1 - (val : ℚ) / 4294967295 := by linarith
    have hne2 : 1 - (val : ℚ) / 4294967295 ≠ 0 := ne_of_gt hsub
    have hu : (100 / (1 - (val : ℚ) / 4294967295)) / 100
        = 1 / (1 - (val : ℚ) / 4294967295) := by
      rw [div_div, mul_comm, ← div_div]
      norm_num
    have h1u : 1 ≤ (100 / (1 - (val : ℚ) / 4294967295)) / 100 := by
      rw [hu]
      rw [one_le_div hsub]
      linarith
    have hmin1 : (1 : ℚ) ≤ min ((100 / (1 - (val : ℚ) / 4294967295)) / 100) 10000 :=
      le_min h1u (by norm_num)
    have hmin2 : min ((100 / (1 - (val : ℚ) / 4294967295)) / 100) 10000 ≤ 10000 :=
      min_le_right _ _
    refine ⟨roundTo 2 (min ((100 / (1 - (val : ℚ) / 4294967295)) / 100) 10000), ?_, ?_, ?_⟩
    · simp [generate_crash_point, h33, pydiv, hne2]
    · have h := intCast_le_roundTo (m := 1)
        (x := min ((100 / (1 - (val : ℚ) / 4294967295)) / 100) 10000) 2 (by exact_mod_cast hmin1)
      exact_mod_cast h
    · have h := roundTo_le_intCast (m := 10000)
        (x := min ((100 / (1 - (val : ℚ) / 4294967295)) / 100) 10000) 2 (by exact_mod_cast hmin2)
      exact_mod_cast h

theorem generate_crash_point_total_bounds_witness :
    ∃ q : ℚ, generate_crash_point 1 = some q ∧ 1 ≤ q ∧ q ≤ 10000 :=
  generate_crash_point_total_bounds 1 (by norm_num) (by norm_num)

/-- C1, counterexample to totality as claimed: at the derived value
`val = 0xFFFFFFFF` (a seed whose HMAC-SHA256 hex digest starts `ffffffff`)
the expression `100 / (1 - val / 0xFFFFFFFF)` divides by zero, so the code
raises `ZeroDivisionError` instead of returning a crash point. -/
theorem generate_crash_point_raises_at_max :
    generate_crash_point 4294967295 = none := by
  norm_num [generate_crash_point, pydiv]

/-- C8: any derived 32-bit value that is a multiple of 33 yields a crash
point of exactly 1.00 (the house-edge branch fires before any division). -/
theorem generate_crash_point_house_edge (val : ℕ) (_hlt : val < 2 ^ 32)
    (h33 : val % 33 = 0) : generate_crash_point val = some 1 := by
  simp [generate_crash_point, h33]

theorem generate_crash_point_house_edge_witness :
    33 % 33 = 0 ∧ generate_crash_point 33 = some 1 :=
  ⟨by norm_num, generate_crash_point_house_edge 33 (by norm_num) (by norm_num)⟩

/-- C6, counterexample: at `val = 0xFFFFFFFE` the crash point is exactly
10000.00 (the clamp), not approximately 100.00 as claimed:
`result = (100 / (1 - 4294967294/4294967295)) / 100 = 4294967295`, which the
`min` clamps to 10000.0. -/
theorem crash_point_near_max_not_100 :
    generate_crash_point 4294967294 = some 10000 ∧
      generate_crash_point 4294967294 ≠ some 100 := by
  constructor
  · norm_num [generate_crash_point, pydiv, roundTo, rhe]
  · norm_num [generate_crash_point, pydiv, roundTo, rhe]

/-- C6, amended: for every derived 32-bit value close enough to the maximum
(`4294537799 ≤ val < 0xFFFFFFFF`, so that `val / 0xFFFFFFFF` approaches 1 and
the raw `result` reaches 10000) that does not hit the house-edge branch,
`generate_crash_point` returns exactly 10000.00: the clamp applies. -/
theorem generate_crash_point_clamp (val : ℕ) (hlo : 4294537799 ≤ val)
    (hhi : val < 4294967295) (h33 : val % 33 ≠ 0) :
    generate_crash_point val = some 10000 := by
  have hvM : (val : ℚ) < 4294967295 := by exact_mod_cast hhi
  have hvlo : (4294537799 : ℚ) ≤ (val : ℚ) := by exact_mod_cast hlo
  have ht1 : (val : ℚ) / 4294967295 < 1 := by
    rw [div_lt_one (by norm_num)]
    exact hvM
  have hsub : (0 : ℚ) < 1 - (val : ℚ) / 4294967295 := by linarith
  have hne2 : 1 - (val : ℚ) / 4294967295 ≠ 0 := ne_of_gt hsub
  have heq : (100 / (1 - (val : ℚ) / 4294967295)) / 100
      = 1 / (1 - (val : ℚ) / 4294967295) := by
    rw [div_div, mul_comm, ← div_div]
    norm_num
  have hbig : (10000 : ℚ) ≤ (100 / (1 - (val : ℚ) / 4294967295)) / 100 := by
    have key : (9999 * 4294967295 : ℕ) ≤ 10000 * val := by omega
    have key' : (9999 : ℚ) * 4294967295 ≤ 10000 * (val : ℚ) := by exact_mod_cast key
    have h2 : (9999 : ℚ) ≤ 10000 * ((val : ℚ) / 4294967295) := by
      rw [mul_div_assoc'] at *
      rw [le_div_iff₀ (show (0:ℚ) < 4294967295 by norm_num)]
      linarith
    rw [heq, le_div_iff₀ hsub]
    nlinarith [h2]
  have hmin : min ((100 / (1 - (val : ℚ) / 4294967295)) / 100) 10000 = 10000 :=
    min_eq_right hbig
  have hround : roundTo 2 (min ((100 / (1 - (val : ℚ) / 4294967295)) / 100) 10000)
      = 10000 := by
    rw [hmin, roundTo]
    have hc : ((10000 : ℚ) * 10 ^ 2) = ((1000000 : ℤ) : ℚ) := by norm_num
    rw [hc, rhe_intCast]
    norm_num
  simp [generate_crash_point, h33, pydiv, hne2, hround]

theorem generate_crash_point_clamp_witness :
    generate_crash_point 4294537799 = some 10000 :=
  generate_crash_point_clamp 4294537799 (by norm_num) (by norm_num) (by norm_num)

/-- C7: within one Running phase the multiplier starts at 1.0, and the
successive values `round(1.0024 ** (elapsed * 10), 2)` are non-decreasing as
elapsed time increases: the growth function is monotone in elapsed time. -/
theorem multiplier_monotone :
    multiplier_at 0 = 1 ∧
      ∀ e₁ e₂ : ℝ, e₁ ≤ e₂ → multiplier_at e₁ ≤ multiplier_at e₂ := by
  constructor
  · rw [multiplier_at]
    rw [show ((0:ℝ) * 10) = 0 by ring]
    rw [Real.rpow_zero]
    rw [roundTo]
    rw [show ((1:ℝ) * 10 ^ 2) = ((100 : ℤ) : ℝ) by norm_num]
    rw [rhe_intCast]
    norm_num
  · intro e₁ e₂ h
    rw [multiplier_at, multiplier_at]
    exact roundTo_mono 2
      (Real.rpow_le_rpow_of_exponent_le (by norm_num) (by linarith))

theorem multiplier_monotone_witness : multiplier_at 0 ≤ multiplier_at 1 :=
  multiplier_monotone.2 0 1 (by norm_num)

theorem lookup_dictInsert_self (k : ℕ) (v : Bet) (l : List (ℕ × Bet)) :
    (dictInsert k v l).lookup k = some v := by
  induction l with
  | nil => simp [dictInsert, List.lookup]
  | cons p rest ih =>
    rcases p with ⟨k', v'⟩
    by_cases hk : k' = k
    · subst hk
      simp [dictInsert, List.lookup]
    · have hb : (k == k') = false := by simpa [beq_iff_eq] using Ne.symm hk
      simp only [dictInsert, if_neg hk, List.lookup, hb]
      exact ih

theorem lookup_dictInsert_ne (k u : ℕ) (hne : u ≠ k) (v : Bet) (l : List (ℕ × Bet)) :
    (dictInsert k v l).lookup u = l.lookup u := by
  induction l with
  | nil =>
    have hb : (u == k) = false := by simpa [beq_iff_eq] using hne
    simp [dictInsert, List.lookup, hb]
  | cons p rest ih =>
    rcases p with ⟨k', v'⟩
    by_cases hk : k' = k
    · subst hk
      have hb : (u == k') = false := by simpa [beq_iff_eq] using hne
      simp only [dictInsert, if_pos rfl, List.lookup, hb]
    · simp only [dictInsert, if_neg hk, List.lookup]
      by_cases hu : u = k'
      · subst hu
        simp
      · have hb : (u == k') = false := by simpa [beq_iff_eq] using hu
        simp only [hb]
        exact ih

theorem countP_key_zero (k : ℕ) (l : List (ℕ × Bet))
    (h : k ∉ l.map Prod.fst) : (l.countP fun p => p.1 == k) = 0 := by
  induction l with
  | nil => simp
  | cons p rest ih =>
    simp only [List.map_cons, List.mem_cons] at h
    push_neg at h
    rw [List.countP_cons]
    rw [ih h.2]
    simp [beq_iff_eq]
    intro hk
    exact absurd hk.symm h.1

theorem keys_dictInsert_subset (k u : ℕ) (v : Bet) (l : List (ℕ × Bet))
    (h : u ∈ (dictInsert k v l).map Prod.fst) : u ∈ l.map Prod.fst ∨ u = k := by
  induction l with
  | nil =>
    simp [dictInsert] at h
    exact Or.inr h
  | cons p rest ih =>
    rcases p with ⟨k', v'⟩
    by_cases hk : k' = k
    · simp only [dictInsert, if_pos hk, List.map_cons, List.mem_cons] at h
      rcases h with h | h
      · exact Or.inr h
      · exact Or.inl (List.mem_cons_of_mem _ h)
    · simp only [dictInsert, if_neg hk, List.map_cons, List.mem_cons] at h
      rcases h with h | h
      · exact Or.inl (h ▸ List.mem_cons_self _ _)
      · rcases ih h with h' | h'
        · exact Or.inl (List.mem_cons_of_mem _ h')
        · exact Or.inr h'

theorem keysNodup_dictInsert (k : ℕ) (v : Bet) (l : List (ℕ × Bet))
    (h : keysNodup l) : keysNodup (dictInsert k v l) := by
  induction l with
  | nil => simp [dictInsert, keysNodup]
  | cons p rest ih =>
    rcases p with ⟨k', v'⟩
    rw [keysNodup, List.map_cons, List.nodup_cons] at h
    by_cases hk : k' = k
    · rw [keysNodup]
      simp only [dictInsert, if_pos hk, List.map_cons, List.nodup_cons]
      exact ⟨hk ▸ h.1, h.2⟩
    · rw [keysNodup]
      simp only [dictInsert, if_neg hk, List.map_cons, List.nodup_cons]
      refine ⟨fun hmem => ?_, ih h.2⟩
      rcases keys_dictInsert_subset k k' v rest hmem with h' | h'
      · exact h.1 h'
      · exact hk h'

theorem countP_key_dictInsert (k : ℕ) (v : Bet) (l : List (ℕ × Bet))
    (h : keysNodup l) : ((dictInsert k v l).countP fun p => p.1 == k) = 1 := by
  induction l with
  | nil => simp [dictInsert]
  | cons p rest ih =>
    rcases p with ⟨k', v'⟩
    rw [keysNodup, List.map_cons, List.nodup_cons] at h
    by_cases hk : k' = k
    · simp only [dictInsert, if_pos hk]
      rw [List.countP_cons]
      rw [countP_key_zero k rest (hk ▸ h.1)]
      simp
    · simp only [dictInsert, if_neg hk]
      rw [List.countP_cons]
      rw [ih h.2]
      simp [beq_iff_eq, hk]

/-- C5: a cashout request that succeeds — phase is Running and the
participant holds a bet not yet cashed out — marks the bet cashed out,
records `cashout_at` equal to the current multiplier, and broadcasts the
`cashout` event with `winnings = round(amount * multiplier, 4)`. -/
theorem request_cashout_success (g : GameState) (uid : ℕ) (b : Bet)
    (hphase : g.phase = Phase.running) (hl : g.bets.lookup uid = some b)
    (hc : b.cashed_out = false) :
    (applyOp g (.cashout_msg uid)).1.bets.lookup uid =
        some { b with cashed_out := true, cashout_at := some g.multiplier } ∧
      (applyOp g (.cashout_msg uid)).2 =
        [.cashout uid b.username g.multiplier
          (roundTo 4 (b.amount * g.multiplier))] := by
  simp [applyOp, request_cashout, hphase, hl, hc, lookup_dictInsert_self]

theorem request_cashout_success_witness :
    (applyOp runningState (.cashout_msg 1)).1.bets.lookup 1 =
        some { sampleBet with cashed_out := true, cashout_at := some (2 : ℚ) } ∧
      (applyOp runningState (.cashout_msg 1)).2 =
        [.cashout 1 sampleBet.username 2 (roundTo 4 (sampleBet.amount * 2))] :=
  request_cashout_success runningState 1 sampleBet rfl rfl rfl

/-- C3, counterexample: a cashout request from a participant with no active
bet (here: phase is Running, ledger empty) produces no `error` event at all —
the request is silently ignored, though the claim says an error event is
reported to the offending connection. -/
theorem cashout_invalid_emits_no_error :
    applyOp idleRunningState (.cashout_msg 7) = (idleRunningState, []) ∧
      ((applyOp idleRunningState (.cashout_msg 7)).2.any isError) = false := by
  constructor
  · rfl
  · rfl

/-- C3, amended: a cashout request received outside the Running phase, or
from a participant with no bet, or for a bet already cashed out, is silently
ignored: the state is unchanged and no event is emitted — not even a private
`error` reply. -/
theorem request_cashout_invalid_silent (g : GameState) (uid : ℕ)
    (h : g.phase ≠ Phase.running ∨ g.bets.lookup uid = none ∨
      ∃ b, g.bets.lookup uid = some b ∧ b.cashed_out = true) :
    applyOp g (.cashout_msg uid) = (g, []) := by
  show request_cashout g uid = (g, [])
  by_cases hp : g.phase = Phase.running
  · rcases h with h | h | ⟨b, hb, hc⟩
    · exact absurd hp h
    · simp [request_cashout, hp, h]
    · simp [request_cashout, hp, hb, hc]
  · simp [request_cashout, hp]

theorem request_cashout_invalid_silent_witness :
    applyOp runningCashedState (.cashout_msg 1) = (runningCashedState, []) :=
  request_cashout_invalid_silent runningCashedState 1
    (Or.inr (Or.inr ⟨sampleCashedBet, rfl, rfl⟩))

theorem lookup_map_pass (m : ℚ) (uid : ℕ) (l : List (ℕ × Bet)) :
    (l.map fun p => (p.1, auto_pass_bet m p.2)).lookup uid
      = (l.lookup uid).map (auto_pass_bet m) := by
  induction l with
  | nil => simp [List.lookup]
  | cons p rest ih =>
    rcases p with ⟨k, b⟩
    by_cases hk : uid = k
    · subst hk
      simp [List.lookup]
    · have hb : (uid == k) = false := by simpa [beq_iff_eq] using hk
      simp [List.lookup, hb, ih]

theorem tick_cashouts_mem_keys (m : ℚ) (l : List (ℕ × Bet)) (c : CashoutNote)
    (hc : c ∈ tick_cashouts m l) : c.user_id ∈ l.map Prod.fst := by
  rw [tick_cashouts] at hc
  rcases List.mem_filterMap.mp hc with ⟨p, hp, he⟩
  by_cases hhit : autoHit m p.2
  · rw [if_pos hhit] at he
    have : c.user_id = p.1 := by
      cases he
      rfl
    rw [this]
    exact List.mem_map_of_mem Prod.fst hp
  · rw [if_neg hhit] at he
    exact absurd he (by simp)

theorem tick_cashouts_no_uid (m : ℚ) (uid : ℕ) (b : Bet) (l : List (ℕ × Bet))
    (hN : keysNodup l) (hl : l.lookup uid = some b) (hhit : autoHit m b = false) :
    ∀ c ∈ tick_cashouts m l, c.user_id ≠ uid := by
  induction l with
  | nil => simp [tick_cashouts]
  | cons p rest ih =>
    rcases p with ⟨k, v⟩
    rw [keysNodup, List.map_cons, List.nodup_cons] at hN
    intro c hc
    by_cases hk : uid = k
    · subst hk
      rw [List.lookup] at hl
      simp only [beq_self_eq_true] at hl
      have hv : v = b := by
        cases hl
        rfl
      rw [tick_cashouts, List.filterMap_cons] at hc
      rw [hv] at hc
      rw [hhit] at hc
      simp only [Bool.false_eq_true, if_false] at hc
      intro heq
      exact hN.1 (heq ▸ tick_cashouts_mem_keys m rest c hc)
    · have hb : (uid == k) = false := by simpa [beq_iff_eq] using hk
      rw [List.lookup, hb] at hl
      rw [tick_cashouts, List.filterMap_cons] at hc
      by_cases hhit' : autoHit m v
      · rw [if_pos hhit'] at hc
        rcases List.mem_cons.mp hc with hc' | hc'
        · rw [hc']
          simpa [eq_comm] using hk
        · exact ih hN.2 hl c hc'
      · rw [if_neg hhit'] at hc
        exact ih hN.2 hl c hc

theorem autoHit_false_of_cashed (m : ℚ) (b : Bet) (hc : b.cashed_out = true) :
    autoHit m b = false := by
  simp [autoHit, hc]

theorem autoHit_false_of_none (m : ℚ) (b : Bet) (ha : b.auto_cashout = none) :
    autoHit m b = false := by
  simp [autoHit, ha]

theorem place_bet_eval (g : GameState) (uid : ℕ) (amt : ℚ) (auto : Option ℚ)
    (un : String) (hp : g.phase = Phase.betting) (h : 0 < amt) :
    place_bet g uid (.jnum amt) (jOfOpt auto) un =
      ({ g with
          bets := dictInsert uid (storedBet amt auto un) g.bets },
       [.bet_placed uid un amt]) := by
  rcases auto with _ | a
  · simp [place_bet, jfloat, jOfOpt, jtruthy, autoStore, storedBet, hp, not_le.mpr h]
  · by_cases ha : a = 0
    · subst ha
      simp [place_bet, jfloat, jOfOpt, jtruthy, autoStore, storedBet, hp, not_le.mpr h]
    · simp [place_bet, jfloat, jOfOpt, jtruthy, autoStore, storedBet, hp, not_le.mpr h, ha]

/-- C4: `place_bet` is rejected with a private validation `error` reply and
leaves the bet ledger unchanged whenever the phase is not Betting or the
amount is ≤ 0; otherwise it inserts or replaces (last write wins) the
participant's single bet for the round: with distinct ledger keys the
participant holds exactly one entry afterwards, and a repeated placement
overwrites the first rather than stacking. -/
theorem place_bet_spec (g : GameState) (uid : ℕ) (amt : ℚ) (auto : Option ℚ)
    (un : String) :
    (g.phase ≠ Phase.betting →
      applyOp g (.place_bet_msg uid (.jnum amt) (jOfOpt auto) un) =
        (g, [.error "Ставки принимаются только до начала раунда"])) ∧
    (g.phase = Phase.betting → amt ≤ 0 →
      applyOp g (.place_bet_msg uid (.jnum amt) (jOfOpt auto) un) =
        (g, [.error "Некорректная сумма ставки"])) ∧
    (g.phase = Phase.betting → 0 < amt →
      (applyOp g (.place_bet_msg uid (.jnum amt) (jOfOpt auto) un)).1.bets =
          dictInsert uid (storedBet amt auto un) g.bets ∧
        (applyOp g (.place_bet_msg uid (.jnum amt) (jOfOpt auto) un)).2 =
          [.bet_placed uid un amt] ∧
        (keysNodup g.bets →
          keysNodup (dictInsert uid (storedBet amt auto un) g.bets) ∧
            ((dictInsert uid (storedBet amt auto un) g.bets).countP
              fun p => p.1 == uid) = 1)) ∧
    (g.phase = Phase.betting → 0 < amt → ∀ (amt₂ : ℚ) (auto₂ : Option ℚ)
      (un₂ : String), 0 < amt₂ →
      ((applyOp (applyOp g (.place_bet_msg uid (.jnum amt) (jOfOpt auto) un)).1
        (.place_bet_msg uid (.jnum amt₂) (jOfOpt auto₂) un₂)).1.bets.lookup uid)
        = some (storedBet amt₂ auto₂ un₂)) := by
  refine ⟨?_, ?_, ?_, ?_⟩
  · intro h
    show place_bet g uid (.jnum amt) (jOfOpt auto) un = _
    simp [place_bet, jfloat, h]
  · intro hp h
    show place_bet g uid (.jnum amt) (jOfOpt auto) un = _
    simp [place_bet, jfloat, hp, h]
  · intro hp h
    rw [show applyOp g (.place_bet_msg uid (.jnum amt) (jOfOpt auto) un) =
        place_bet g uid (.jnum amt) (jOfOpt auto) un from rfl]
    rw [place_bet_eval g uid amt auto un hp h]
    exact ⟨rfl, rfl, fun hN =>
      ⟨keysNodup_dictInsert uid _ g.bets hN, countP_key_dictInsert uid _ g.bets hN⟩⟩
  · intro hp h amt₂ auto₂ un₂ h₂
    rw [show applyOp g (.place_bet_msg uid (.jnum amt) (jOfOpt auto) un) =
        place_bet g uid (.jnum amt) (jOfOpt auto) un from rfl]
    rw [place_bet_eval g uid amt auto un hp h]
    rw [show applyOp ({ g with
          bets := dictInsert uid (storedBet amt auto un) g.bets })
        (.place_bet_msg uid (.jnum amt₂) (jOfOpt auto₂) un₂) =
        place_bet ({ g with
          bets := dictInsert uid (storedBet amt auto un) g.bets }) uid
          (.jnum amt₂) (jOfOpt auto₂) un₂ from rfl]
    rw [place_bet_eval ({ g with
        bets := dictInsert uid (storedBet amt auto un) g.bets }) uid amt₂ auto₂
        un₂ hp h₂]
    exact lookup_dictInsert_self uid _ _

theorem place_bet_spec_witness :
    ((applyOp (applyOp bettingState
        (.place_bet_msg 1 (.jnum 5) (jOfOpt none) "p")).1
        (.place_bet_msg 1 (.jnum 7) (jOfOpt (some 2)) "q")).1.bets.lookup 1)
      = some (storedBet 7 (some 2) "q") :=
  (place_bet_spec bettingState 1 5 none "p").2.2.2 rfl (by norm_num) 7 (some 2)
    "q" (by norm_num)

/-- C10: an accepted bet whose `auto_cashout` field is falsy — the number 0
(hence also `0.0`), the empty string, or an absent field — is stored with
`auto_cashout = None`, and a bet with no threshold is never auto-resolved by
a Running tick; a non-falsy numeric threshold is stored exactly as sent, so
no validation forces it to be ≥ 1.0 (for instance 1/2 is accepted). -/
theorem auto_cashout_falsy_spec (g : GameState) (uid : ℕ) (amt : ℚ)
    (un : String) (hp : g.phase = Phase.betting) (h : 0 < amt) :
    (∀ autoJ, (autoJ = JVal.jnum 0 ∨ autoJ = JVal.jstr "" ∨ autoJ = JVal.jnull) →
      (applyOp g (.place_bet_msg uid (.jnum amt) autoJ un)).1.bets.lookup uid =
        some (storedBet amt none un)) ∧
    (∀ (g' : GameState) (m : ℚ) (b : Bet), keysNodup g'.bets →
      g'.bets.lookup uid = some b → b.auto_cashout = none →
      (applyOp g' (.tick m)).1.bets.lookup uid = some b ∧
        ((applyOp g' (.tick m)).2.all fun e => !resolvesUid uid e) = true) ∧
    (∀ a : ℚ, a ≠ 0 →
      (applyOp g (.place_bet_msg uid (.jnum amt) (.jnum a) un)).1.bets.lookup uid =
        some (storedBet amt (some a) un)) := by
  refine ⟨?_, ?_, ?_⟩
  · rintro autoJ (rfl | rfl | rfl)
    · show (place_bet g uid (.jnum amt) (.jnum 0) un).1.bets.lookup uid = _
      rw [show JVal.jnum 0 = jOfOpt (some 0) from rfl]
      rw [place_bet_eval g uid amt (some 0) un hp h]
      rw [show storedBet amt none un = storedBet amt (some 0) un from by
        simp [storedBet, autoStore]]
      exact lookup_dictInsert_self uid _ _
    · show (place_bet g uid (.jnum amt) (.jstr "") un).1.bets.lookup uid = _
      have he : place_bet g uid (.jnum amt) (.jstr "") un =
          place_bet g uid (.jnum amt) (jOfOpt none) un := by
        simp [place_bet, jtruthy, jOfOpt]
      rw [he, place_bet_eval g uid amt none un hp h]
      exact lookup_dictInsert_self uid _ _
    · show (place_bet g uid (.jnum amt) JVal.jnull un).1.bets.lookup uid = _
      rw [show JVal.jnull = jOfOpt none from rfl]
      rw [place_bet_eval g uid amt none un hp h]
      exact lookup_dictInsert_self uid _ _
  · intro g' m b hN hl ha
    by_cases hcp : g'.crash_point ≤ m
    · simp only [applyOp, if_pos hcp]
      exact ⟨hl, rfl⟩
    · simp only [applyOp, if_neg hcp]
      refine ⟨?_, ?_⟩
      · rw [lookup_map_pass, hl]
        simp [auto_pass_bet, autoHit_false_of_none m b ha]
      · have hno := tick_cashouts_no_uid m uid b g'.bets hN hl
          (autoHit_false_of_none m b ha)
        simp only [List.all_cons, List.all_nil, Bool.and_true, resolvesUid]
        rw [Bool.not_eq_true']
        rw [List.any_eq_false]
        intro c hc
        simpa [beq_iff_eq] using hno c hc
  · intro a ha
    show (place_bet g uid (.jnum amt) (.jnum a) un).1.bets.lookup uid = _
    rw [show JVal.jnum a = jOfOpt (some a) from rfl]
    rw [place_bet_eval g uid amt (some a) un hp h]
    exact lookup_dictInsert_self uid _ _

theorem auto_cashout_falsy_spec_witness :
    (applyOp bettingState
      (.place_bet_msg 1 (.jnum 5) (.jnum (1/2)) "p")).1.bets.lookup 1 =
      some (storedBet 5 (some (1/2)) "p") :=
  (auto_cashout_falsy_spec bettingState 1 5 "p" rfl (by norm_num)).2.2 (1/2)
    (by norm_num)

/-- C2: once a bet's `cashed_out` flag is true, no operation — phase entry,
Running-tick auto-cashout evaluation, or explicit cashout request — resolves
it again or resets it: the entry at that key is either left exactly as it is
while no cashout event for that participant is emitted, or its lifetime ends
(the ledger is cleared at Betting entry, or the key is overwritten with a
fresh not-yet-cashed-out bet by a new placement); hence within one bet's
lifetime `cashed_out` transitions false→true at most once, whether by
auto-cashout or by explicit request. -/
theorem cashed_out_at_most_once (g : GameState) (op : Op) (uid : ℕ) (b : Bet)
    (hN : keysNodup g.bets) (hl : g.bets.lookup uid = some b)
    (hc : b.cashed_out = true) :
    ((applyOp g op).2.all fun e => !resolvesUid uid e) = true ∧
      ((applyOp g op).1.bets.lookup uid = some b ∨
        (applyOp g op).1.bets.lookup uid = none ∨
        ∃ b', (applyOp g op).1.bets.lookup uid = some b' ∧
          b'.cashed_out = false ∧ b'.cashout_at = none) := by
  cases op with
  | betting_start cp =>
    exact ⟨rfl, Or.inr (Or.inl rfl)⟩
  | running_start =>
    exact ⟨rfl, Or.inl hl⟩
  | tick m =>
    by_cases hcp : g.crash_point ≤ m
    · simp only [applyOp, if_pos hcp]
      exact ⟨rfl, Or.inl hl⟩
    · simp only [applyOp, if_neg hcp]
      constructor
      · have hno := tick_cashouts_no_uid m uid b g.bets hN hl
          (autoHit_false_of_cashed m b hc)
        simp only [List.all_cons, List.all_nil, Bool.and_true, resolvesUid]
        rw [Bool.not_eq_true']
        rw [List.any_eq_false]
        intro c hcm
        simpa [beq_iff_eq] using hno c hcm
      · refine Or.inl ?_
        rw [lookup_map_pass, hl]
        simp [auto_pass_bet, autoHit_false_of_cashed m b hc]
  | crash ts =>
    exact ⟨rfl, Or.inl hl⟩
  | place_bet_msg u amountJ autoJ un =>
    simp only [applyOp]
    cases haj : jfloat amountJ with
    | none =>
      simp only [place_bet, haj]
      exact ⟨rfl, Or.inl hl⟩
    | some amount =>
      by_cases hph : g.phase ≠ Phase.betting
      · simp only [place_bet, haj, if_pos hph]
        exact ⟨rfl, Or.inl hl⟩
      · by_cases hamt : amount ≤ 0
        · simp only [place_bet, haj, if_neg hph, if_pos hamt]
          exact ⟨rfl, Or.inl hl⟩
        · cases hconv : (if jtruthy autoJ then (jfloat autoJ).map Option.some
              else some none) with
          | none =>
            simp only [place_bet, haj, if_neg hph, if_neg hamt, hconv]
            exact ⟨rfl, Or.inl hl⟩
          | some ac =>
            simp only [place_bet, haj, if_neg hph, if_neg hamt, hconv]
            constructor
            · rfl
            · by_cases hu : u = uid
              · subst hu
                exact Or.inr (Or.inr ⟨⟨amount, ac, false, none, un⟩,
                  lookup_dictInsert_self u _ _, rfl, rfl⟩)
              · refine Or.inl ?_
                rw [lookup_dictInsert_ne u uid (Ne.symm hu)]
                exact hl
  | cashout_msg u =>
    simp only [applyOp]
    by_cases hph : g.phase = Phase.running
    · cases hlu : g.bets.lookup u with
      | none =>
        simp only [request_cashout, if_pos hph, hlu]
        exact ⟨rfl, Or.inl hl⟩
      | some bet =>
        by_cases hbc : bet.cashed_out
        · simp only [request_cashout, if_pos hph, hlu, if_pos hbc]
          exact ⟨rfl, Or.inl hl⟩
        · simp only [request_cashout, if_pos hph, hlu, if_neg hbc]
          by_cases hu : u = uid
          · subst hu
            rw [hl] at hlu
            cases hlu
            exact absurd hc hbc
          · constructor
            · simp only [List.all_cons, List.all_nil, Bool.and_true, resolvesUid]
              rw [Bool.not_eq_true']
              simp [beq_iff_eq, hu]
            · refine Or.inl ?_
              rw [lookup_dictInsert_ne u uid (Ne.symm hu)]
              exact hl
    · simp only [request_cashout, if_neg hph]
      exact ⟨rfl, Or.inl hl⟩

theorem cashed_out_at_most_once_witness :
    ((applyOp runningCashedState (.cashout_msg 1)).2.all
        fun e => !resolvesUid 1 e) = true ∧
      ((applyOp runningCashedState (.cashout_msg 1)).1.bets.lookup 1 =
          some sampleCashedBet ∨
        (applyOp runningCashedState (.cashout_msg 1)).1.bets.lookup 1 = none ∨
        ∃ b', (applyOp runningCashedState (.cashout_msg 1)).1.bets.lookup 1 =
            some b' ∧ b'.cashed_out = false ∧ b'.cashout_at = none) :=
  cashed_out_at_most_once runningCashedState (.cashout_msg 1) 1 sampleCashedBet
    (by simp [keysNodup, runningCashedState]) rfl rfl

theorem take_append_take (n : ℕ) (a b : List HistoryEntry) :
    (a ++ b.take n).take n = (a ++ b).take n := by
  rw [List.take_append_eq_append_take, List.take_append_eq_append_take]
  rw [List.take_take]
  congr 1
  rw [min_eq_left (Nat.sub_le n _)]

theorem foldl_push_history (l : List HistoryEntry) :
    ∀ h0 : List HistoryEntry, h0.length ≤ 20 →
      l.foldl push_history h0 = (l.reverse ++ h0).take 20 := by
  induction l with
  | nil =>
    intro h0 hh
    simp [List.take_of_length_le hh]
  | cons e l ih =>
    intro h0 hh
    rw [List.foldl_cons]
    rw [ih (push_history h0 e) (by
      rw [push_history]
      exact List.length_take_le 20 _)]
    rw [push_history]
    rw [take_append_take]
    rw [List.reverse_cons, List.append_assoc]
    rfl

/-- C9: starting from the empty history, after more than 20 completed rounds
the history ring holds exactly the 20 most recent entries in newest-first
order — each round's entry is prepended at Crashed-phase entry and the list
truncated to 20 — and the externally visible recent window is the first 7 of
those entries; the Crashed-phase step performs exactly this update and
broadcasts that 7-entry window. -/
theorem history_ring_spec :
    (∀ es : List HistoryEntry, 20 < es.length →
      es.foldl push_history [] = es.reverse.take 20 ∧
        (es.foldl push_history []).length = 20 ∧
        (es.foldl push_history []).take 7 = es.reverse.take 7) ∧
      ∀ (g : GameState) (ts : ℕ),
        (applyOp g (.crash ts)).1.history =
            push_history g.history ⟨g.round_id, g.crash_point, ts⟩ ∧
          (applyOp g (.crash ts)).2 =
            [.crashed g.crash_point g.round_id (round_results g.bets)
              ((push_history g.history ⟨g.round_id, g.crash_point, ts⟩).take 7)] := by
  constructor
  · intro es hlen
    have h1 : es.foldl push_history [] = es.reverse.take 20 := by
      rw [foldl_push_history es [] (by simp)]
      simp
    refine ⟨h1, ?_, ?_⟩
    · rw [h1, List.length_take, List.length_reverse]
      omega
    · rw [h1, List.take_take]
      norm_num
  · intro g ts
    exact ⟨rfl, rfl⟩

theorem history_ring_spec_witness :
    20 < (((List.range 21).map fun i =>
        ({ round_id := i, crash_point := 1, timestamp := 0 } : HistoryEntry)).length) ∧
      ((((List.range 21).map fun i =>
        ({ round_id := i, crash_point := 1, timestamp := 0 } : HistoryEntry)).foldl
          push_history []).length = 20) :=
  ⟨by simp, ((history_ring_spec.1 _ (by simp)).2).1⟩
